import Mathlib

/-!
Verification of the QR rendering core of `qr-api`.

The definitions below are shallow embeddings of the TypeScript sources:
* `src/qr-generator.ts` — geometry, raster (PNG) and vector (SVG) rendering,
  `colorToHex`, `convertCharset`;
* `src/validators.ts` — `parseColor`;
* the worker entry file — GET/POST parameter merging.

JS numbers are integers throughout the embedded code paths, so they are
modelled as `Int` (or `Nat` where the source value is a validated
non-negative quantity).  JS strings are modelled as lists of UTF-16 code
units (`List Char` where only code-point comparisons matter, `List Nat`
for the charset converter).
-/

set_option maxHeartbeats 1000000

namespace QRApi

/-- RGB triple as produced by `parseColor` in `src/validators.ts`. -/
structure Color where
  r : Nat
  g : Nat
  b : Nat
deriving DecidableEq

/-- A color whose components are in the byte range, as `parseColor`
guarantees for its results. -/
def Color.valid (c : Color) : Prop := c.r ≤ 255 ∧ c.g ≤ 255 ∧ c.b ≤ 255

/-- The geometry quantities computed by both renderers. -/
structure Geometry where
  totalModules : Int
  available : Int
  moduleSize : Int
  contentSize : Int
  leftover : Int
  offset : Int
deriving DecidableEq

/-- Transcription of the geometry block of `generatePNG`
(`src/qr-generator.ts` lines 116–125).  `Math.floor(params.margin)` is the
identity because `margin` is a validated integer; `Math.max` is `max`;
`Math.floor` of a non-negative real quotient is integer division. -/
def pngGeometry (moduleCount size margin qzone : Nat) : Geometry :=
  let marginPx : Int := max 0 (margin : Int)
  let totalModules : Int := (moduleCount : Int) + 2 * (qzone : Int)
  let available : Int := max 0 ((size : Int) - 2 * marginPx)
  let moduleSize : Int := max 1 (available / totalModules)
  let contentSize : Int := moduleSize * totalModules
  let leftover : Int := max 0 (available - contentSize)
  let offset : Int := marginPx + leftover / 2 + (qzone : Int) * moduleSize
  ⟨totalModules, available, moduleSize, contentSize, leftover, offset⟩

/-- Transcription of the geometry block of `generateQRCodeSVG`
(`src/qr-generator.ts` lines 85–93). -/
def svgGeometry (moduleCount size margin qzone : Nat) : Geometry :=
  let marginPx : Int := max 0 (margin : Int)
  let totalModules : Int := (moduleCount : Int) + 2 * (qzone : Int)
  let available : Int := max 0 ((size : Int) - 2 * marginPx)
  let moduleSize : Int := max 1 (available / totalModules)
  let contentSize : Int := moduleSize * totalModules
  let leftover : Int := max 0 (available - contentSize)
  let offset : Int := marginPx + leftover / 2 + (qzone : Int) * moduleSize
  ⟨totalModules, available, moduleSize, contentSize, leftover, offset⟩

theorem pngGeometry_moduleSize_pos (mc s m q : Nat) :
    1 ≤ (pngGeometry mc s m q).moduleSize := by
  unfold pngGeometry
  exact le_max_left _ _

theorem pngGeometry_offset_nonneg (mc s m q : Nat) :
    0 ≤ (pngGeometry mc s m q).offset := by
  unfold pngGeometry
  have h1 : (0 : Int) ≤ max 0 (m : Int) := le_max_left _ _
  have h2 : (0 : Int) ≤
      max 0 (max 0 ((s : Int) - 2 * max 0 (m : Int)) -
        max 1 (max 0 ((s : Int) - 2 * max 0 (m : Int)) /
          ((mc : Int) + 2 * (q : Int))) * ((mc : Int) + 2 * (q : Int))) :=
    le_max_left _ _
  have h3 : (0 : Int) ≤ (q : Int) := Int.natCast_nonneg q
  have h4 : (1 : Int) ≤ max 1 (max 0 ((s : Int) - 2 * max 0 (m : Int)) /
      ((mc : Int) + 2 * (q : Int))) := le_max_left _ _
  have h5 := Int.ediv_nonneg h2 (by norm_num : (0:Int) ≤ 2)
  positivity

/-- C1: for every `moduleCount` (odd, ≥ 21), `targetSize ≥ 1`, `margin ∈ [0,50]`
and `qzone ∈ [0,100]`, the renderer computes its geometry exactly by the
documented formulas (`availablePx = max(0, targetSize - 2*marginPx)`,
`moduleSizePx = max(1, ⌊availablePx/totalModules⌋)`, …), `moduleSizePx ≥ 1`
always, and the concrete scenario `21/200/1/0` yields `moduleSizePx = 9`
and `offsetPx = 5`. -/
theorem geometry_matches_documented_formulas (mc ts m qz : Nat)
    (hmc : 21 ≤ mc) (hodd : mc % 2 = 1) (hts : 1 ≤ ts) (hm : m ≤ 50) (hqz : qz ≤ 100) :
    ((pngGeometry mc ts m qz).totalModules = (mc : Int) + 2 * (qz : Int)
      ∧ (pngGeometry mc ts m qz).available = max 0 ((ts : Int) - 2 * (m : Int))
      ∧ (pngGeometry mc ts m qz).moduleSize
          = max 1 ((pngGeometry mc ts m qz).available / (pngGeometry mc ts m qz).totalModules)
      ∧ (pngGeometry mc ts m qz).contentSize
          = (pngGeometry mc ts m qz).moduleSize * (pngGeometry mc ts m qz).totalModules
      ∧ (pngGeometry mc ts m qz).leftover
          = max 0 ((pngGeometry mc ts m qz).available - (pngGeometry mc ts m qz).contentSize)
      ∧ (pngGeometry mc ts m qz).offset
          = (m : Int) + (pngGeometry mc ts m qz).leftover / 2
            + (qz : Int) * (pngGeometry mc ts m qz).moduleSize
      ∧ 1 ≤ (pngGeometry mc ts m qz).moduleSize)
    ∧ ((pngGeometry 21 200 1 0).moduleSize = 9 ∧ (pngGeometry 21 200 1 0).offset = 5) := by
  have hmax : max (0 : Int) (m : Int) = (m : Int) := max_eq_right (Int.natCast_nonneg m)
  constructor
  · unfold pngGeometry
    simp only [hmax]
    exact ⟨trivial, trivial, trivial, trivial, trivial, trivial, le_max_left _ _⟩
  · exact ⟨by decide, by decide⟩

theorem geometry_matches_documented_formulas_witness :
    (pngGeometry 21 200 1 0).moduleSize = 9 ∧ (pngGeometry 21 200 1 0).offset = 5 :=
  (geometry_matches_documented_formulas 21 200 1 0 (by decide) (by decide) (by decide)
    (by decide) (by decide)).2

/-- C4: the vector (SVG) path and the raster (PNG) path compute identical
geometry, so each dark module's rectangle (`x = offset + col*moduleSize`,
`y = offset + row*moduleSize`, side `moduleSize`) is the same in both
output formats. -/
theorem raster_vector_geometry_parity (mc s m q : Nat) (row col : Nat) :
    svgGeometry mc s m q = pngGeometry mc s m q
    ∧ (svgGeometry mc s m q).offset + (col : Int) * (svgGeometry mc s m q).moduleSize
        = (pngGeometry mc s m q).offset + (col : Int) * (pngGeometry mc s m q).moduleSize
    ∧ (svgGeometry mc s m q).offset + (row : Int) * (svgGeometry mc s m q).moduleSize
        = (pngGeometry mc s m q).offset + (row : Int) * (pngGeometry mc s m q).moduleSize
    ∧ (svgGeometry mc s m q).moduleSize = (pngGeometry mc s m q).moduleSize := by
  exact ⟨rfl, rfl, rfl, rfl⟩

/-- A filled-rectangle instruction of the vector output. -/
structure Rect where
  x : Int
  y : Int
  w : Int
  h : Int
  fill : Color
deriving DecidableEq

/-- The foreground rectangle emitted for a dark module `(row, col)`
(`src/qr-generator.ts` lines 103–105): `x = offset + col*moduleSize`,
`y = offset + row*moduleSize`, width and height `moduleSize`. -/
def moduleRect (g : Geometry) (dark : Color) (row col : Nat) : Rect :=
  ⟨g.offset + (col : Int) * g.moduleSize, g.offset + (row : Int) * g.moduleSize,
    g.moduleSize, g.moduleSize, dark⟩

/-- Transcription of the rectangle sequence emitted by `generateQRCodeSVG`
(`src/qr-generator.ts` lines 95–111): the full-canvas background `<rect>`,
then the row-major double loop appending one foreground `<rect>` per dark
module. -/
def svgRects (isDark : Nat → Nat → Bool) (moduleCount : Nat) (size margin qzone : Nat)
    (dark light : Color) : List Rect :=
  ⟨0, 0, (size : Int), (size : Int), light⟩ ::
    (List.range moduleCount).foldl (fun acc row =>
      (List.range moduleCount).foldl (fun acc2 col =>
        if isDark row col then
          acc2 ++ [moduleRect (svgGeometry moduleCount size margin qzone) dark row col]
        else acc2) acc) []

theorem foldl_append_filter_map {α : Type} (l : List α) (acc : List Rect)
    (p : α → Bool) (f : α → Rect) :
    l.foldl (fun a x => if p x then a ++ [f x] else a) acc
      = acc ++ (l.filter p).map f := by
  induction l generalizing acc with
  | nil => simp
  | cons x xs ih =>
    simp only [List.foldl_cons, List.filter_cons]
    by_cases hx : p x
    · simp [hx, ih]
    · simp [hx, ih]

theorem foldl_rows_eq_flatMap (isDark : Nat → Nat → Bool) (g : Geometry) (dark : Color)
    (rows : List Nat) (cols : List Nat) (acc : List Rect) :
    rows.foldl (fun a row =>
        cols.foldl (fun a2 col =>
          if isDark row col then a2 ++ [moduleRect g dark row col] else a2) a) acc
      = acc ++ rows.flatMap (fun row => ((cols.filter (fun col => isDark row col)).map
          (fun col => moduleRect g dark row col))) := by
  induction rows generalizing acc with
  | nil => simp
  | cons r rs ih =>
    simp only [List.foldl_cons, List.flatMap_cons]
    rw [foldl_append_filter_map (f := fun col => moduleRect g dark r col), ih]
    simp

/-- C5: the vector output is the full-canvas background rectangle followed by
exactly one foreground rectangle per dark module, in row-major scan order
(rows outer, columns inner), with no rectangles for light modules. -/
theorem svg_rect_sequence (isDark : Nat → Nat → Bool) (mc s m q : Nat) (dark light : Color) :
    svgRects isDark mc s m q dark light
      = (⟨0, 0, (s : Int), (s : Int), light⟩ : Rect) ::
        (List.range mc).flatMap (fun row =>
          ((List.range mc).filter (fun col => isDark row col)).map
            (fun col => moduleRect (svgGeometry mc s m q) dark row col)) := by
  unfold svgRects
  rw [foldl_rows_eq_flatMap]
  simp

/-- Model of the JS `Uint8Array` used by `generatePNG`: a fixed size and a
byte store.  A write outside `[0, size)` is silently dropped and the stored
value is reduced mod 256, matching typed-array semantics. -/
structure ByteBuf where
  size : Nat
  data : Nat → Nat

/-- `new Uint8Array(n)`: `n` zero bytes. -/
def ByteBuf.alloc (n : Nat) : ByteBuf := ⟨n, fun _ => 0⟩

/-- `buf[i] = v` on a `Uint8Array`, with a JS index (possibly negative). -/
def ByteBuf.write (b : ByteBuf) (i : Int) (v : Nat) : ByteBuf :=
  if 0 ≤ i ∧ i.toNat < b.size then
    { b with data := fun j => if j = i.toNat then v % 256 else b.data j }
  else b

theorem ByteBuf.size_write (b : ByteBuf) (i : Int) (v : Nat) :
    (b.write i v).size = b.size := by
  unfold ByteBuf.write
  split <;> rfl

theorem ByteBuf.write_data (b : ByteBuf) (i : Int) (v : Nat) (j : Nat) :
    (b.write i v).data j = if ((j : Int) = i ∧ i.toNat < b.size) then v % 256 else b.data j := by
  unfold ByteBuf.write
  by_cases h : 0 ≤ i ∧ i.toNat < b.size
  · rw [if_pos h]
    by_cases hj : j = i.toNat
    · simp only [hj, if_pos rfl]
      have hc : (↑i.toNat : Int) = i ∧ i.toNat < b.size := ⟨by omega, h.2⟩
      rw [if_pos hc]
      simp
    · simp only [if_neg hj]
      rw [if_neg (by omega)]
  · rw [if_neg h, if_neg (by omega)]

/-- `write` specialised to a natural (in-range-sign) index. -/
theorem ByteBuf.write_data_nat (b : ByteBuf) (i : Nat) (v : Nat) (j : Nat) :
    (b.write (i : Int) v).data j = if (j = i ∧ i < b.size) then v % 256 else b.data j := by
  rw [ByteBuf.write_data]
  by_cases h : j = i ∧ i < b.size
  · rw [if_pos (by omega), if_pos h]
  · rw [if_neg (by omega), if_neg h]

/-- Byte `k` of the four RGBA bytes written for a color (`k = 3` is alpha). -/
def Color.channel (c : Color) (k : Nat) : Nat :=
  if k = 0 then c.r % 256 else if k = 1 then c.g % 256 else if k = 2 then c.b % 256 else 255

/-- Transcription of the background fill loop of `generatePNG`
(`src/qr-generator.ts` lines 130–135): `for (i = 0; i < imageData.length;
i += 4)` writes `bgcolor.r, bgcolor.g, bgcolor.b, 255`; since the length is
`size*size*4`, the index `i` takes the values `4*p` for `p < size*size`. -/
def fillBackground (S : Nat) (bg : Color) (buf : ByteBuf) : ByteBuf :=
  (List.range (S * S)).foldl
    (fun b p =>
      (((b.write (4 * p : Nat) bg.r).write (4 * p + 1 : Nat) bg.g).write
        (4 * p + 2 : Nat) bg.b).write (4 * p + 3 : Nat) 255)
    buf

theorem foldl_size_invariant {α : Type} (f : ByteBuf → α → ByteBuf)
    (hf : ∀ b a, (f b a).size = b.size) (l : List α) (b : ByteBuf) :
    (l.foldl f b).size = b.size := by
  induction l generalizing b with
  | nil => rfl
  | cons x xs ih => rw [List.foldl_cons, ih, hf]

theorem fillBackground_size (S : Nat) (bg : Color) (buf : ByteBuf) :
    (fillBackground S bg buf).size = buf.size := by
  unfold fillBackground
  exact foldl_size_invariant _ (fun b p => by simp [ByteBuf.size_write]) _ _

theorem fillBackground_aux (bg : Color) (buf : ByteBuf) (n : Nat) (j : Nat) :
    ((List.range n).foldl
      (fun b p =>
        (((b.write (4 * p : Nat) bg.r).write (4 * p + 1 : Nat) bg.g).write
          (4 * p + 2 : Nat) bg.b).write (4 * p + 3 : Nat) 255) buf).data j
      = if j < 4 * n ∧ j < buf.size then bg.channel (j % 4) else buf.data j := by
  induction n with
  | zero => simp
  | succ n ih =>
    rw [List.range_succ, List.foldl_append, List.foldl_cons, List.foldl_nil]
    have hsz : ∀ m : ByteBuf, m = (List.range n).foldl
        (fun b p =>
          (((b.write (4 * p : Nat) bg.r).write (4 * p + 1 : Nat) bg.g).write
            (4 * p + 2 : Nat) bg.b).write (4 * p + 3 : Nat) 255) buf → m.size = buf.size := by
      intro m hm
      rw [hm]
      exact foldl_size_invariant _ (fun b p => by simp [ByteBuf.size_write]) _ _
    set prev := (List.range n).foldl
        (fun b p =>
          (((b.write (4 * p : Nat) bg.r).write (4 * p + 1 : Nat) bg.g).write
            (4 * p + 2 : Nat) bg.b).write (4 * p + 3 : Nat) 255) buf with hprev
    have hps : prev.size = buf.size := hsz prev hprev
    rw [ByteBuf.write_data_nat, ByteBuf.write_data_nat, ByteBuf.write_data_nat,
      ByteBuf.write_data_nat]
    simp only [ByteBuf.size_write, hps]
    by_cases h3 : j = 4 * n + 3 ∧ 4 * n + 3 < buf.size
    · rw [if_pos h3, if_pos (by omega)]
      have : j % 4 = 3 := by omega
      simp [Color.channel, this]
    · rw [if_neg h3]
      by_cases h2 : j = 4 * n + 2 ∧ 4 * n + 2 < buf.size
      · rw [if_pos h2, if_pos (by omega)]
        have : j % 4 = 2 := by omega
        simp [Color.channel, this]
      · rw [if_neg h2]
        by_cases h1 : j = 4 * n + 1 ∧ 4 * n + 1 < buf.size
        · rw [if_pos h1, if_pos (by omega)]
          have : j % 4 = 1 := by omega
          simp [Color.channel, this]
        · rw [if_neg h1]
          by_cases h0 : j = 4 * n ∧ 4 * n < buf.size
          · rw [if_pos h0, if_pos (by omega)]
            have : j % 4 = 0 := by omega
            simp [Color.channel, this]
          · rw [if_neg h0, ih]
            by_cases hlt : j < 4 * n ∧ j < buf.size
            · rw [if_pos hlt, if_pos (by omega)]
            · rw [if_neg hlt, if_neg (by omega)]

theorem fillBackground_data (S : Nat) (bg : Color) (buf : ByteBuf) (j : Nat) :
    (fillBackground S bg buf).data j
      = if j < 4 * (S * S) ∧ j < buf.size then bg.channel (j % 4) else buf.data j :=
  fillBackground_aux bg buf (S * S) j

theorem pixel_lt (S a b : Nat) (ha : a < S) (hb : b < S) : b * S + a < S * S := by
  have h2 : (b + 1) * S ≤ S * S := Nat.mul_le_mul_right S hb
  have h3 : (b + 1) * S = b * S + S := by ring
  omega

/-- Distinct in-canvas pixel/channel coordinates give distinct byte indices. -/
theorem pixel_index_inj (S a b a2 b2 k k2 : Nat) (ha : a < S) (ha2 : a2 < S)
    (hk : k < 4) (hk2 : k2 < 4) :
    ((b * S + a) * 4 + k = (b2 * S + a2) * 4 + k2) ↔ (a = a2 ∧ b = b2 ∧ k = k2) := by
  constructor
  · intro h
    have hS : 0 < S := by omega
    have hXY : b * S + a = b2 * S + a2 ∧ k = k2 := by omega
    have hm1 : (b * S + a) % S = a % S := by rw [Nat.mul_comm b S]; exact Nat.mul_add_mod S b a
    have hm2 : (b2 * S + a2) % S = a2 % S := by rw [Nat.mul_comm b2 S]; exact Nat.mul_add_mod S b2 a2
    have hd1 : (b * S + a) / S = b + a / S := by
      rw [Nat.mul_comm b S]; exact Nat.mul_add_div hS b a
    have hd2 : (b2 * S + a2) / S = b2 + a2 / S := by
      rw [Nat.mul_comm b2 S]; exact Nat.mul_add_div hS b2 a2
    have hma : a % S = a := Nat.mod_eq_of_lt ha
    have hma2 : a2 % S = a2 := Nat.mod_eq_of_lt ha2
    have hda : a / S = 0 := Nat.div_eq_of_lt ha
    have hda2 : a2 / S = 0 := Nat.div_eq_of_lt ha2
    refine ⟨?_, ?_, hXY.2⟩
    · rw [← hma, ← hma2, ← hm1, ← hm2, hXY.1]
    · have : b + a / S = b2 + a2 / S := by rw [← hd1, ← hd2, hXY.1]
      omega
  · intro ⟨h1, h2, h3⟩
    rw [h1, h2, h3]

/-- One horizontal scan line of the module-fill loop of `generatePNG`
(`src/qr-generator.ts` lines 143–155) at fixed `y`, with precomputed
`startX`/`startY` (proof-side restatement; `drawDark` below is the
transcription and is proved equal to this). -/
def drawRowAt (S : Nat) (fg : Color) (startX startY y m : Nat) (b : ByteBuf) : ByteBuf :=
  (List.range m).foldl (fun b2 x =>
    if startX + x < S ∧ startY + y < S then
      (((b2.write ((((startY + y) * S + (startX + x)) * 4 : Nat)) fg.r).write
        ((((startY + y) * S + (startX + x)) * 4 + 1 : Nat)) fg.g).write
        ((((startY + y) * S + (startX + x)) * 4 + 2 : Nat)) fg.b).write
        ((((startY + y) * S + (startX + x)) * 4 + 3 : Nat)) 255
    else b2) b

/-- All scan lines of one dark module (proof-side restatement). -/
def drawModuleAt (S : Nat) (fg : Color) (startX startY m : Nat) (b : ByteBuf) : ByteBuf :=
  (List.range m).foldl (fun b y => drawRowAt S fg startX startY y m b) b

/-- Transcription of the per-dark-module fill of `generatePNG`
(`src/qr-generator.ts` lines 141–155): `startX = offset + col*moduleSize`,
`startY = offset + row*moduleSize`, then for `y, x < moduleSize` the pixel
`(startX+x, startY+y)` is written with the foreground color and alpha 255
whenever `pixelX < actualSize && pixelY < actualSize`. -/
def drawDark (S : Nat) (fg : Color) (offset moduleSize : Int) (row col : Nat)
    (buf : ByteBuf) : ByteBuf :=
  let startX : Int := offset + (col : Int) * moduleSize
  let startY : Int := offset + (row : Int) * moduleSize
  (List.range moduleSize.toNat).foldl (fun (b : ByteBuf) (y : Nat) =>
    (List.range moduleSize.toNat).foldl (fun (b2 : ByteBuf) (x : Nat) =>
      let pixelX : Int := startX + (x : Int)
      let pixelY : Int := startY + (y : Int)
      if pixelX < (S : Int) ∧ pixelY < (S : Int) then
        (((b2.write ((pixelY * (S : Int) + pixelX) * 4) fg.r).write
          ((pixelY * (S : Int) + pixelX) * 4 + 1) fg.g).write
          ((pixelY * (S : Int) + pixelX) * 4 + 2) fg.b).write
          ((pixelY * (S : Int) + pixelX) * 4 + 3) 255
      else b2) b) buf

/-- With a non-negative offset and module size (which the geometry always
produces) the transcribed `drawDark` is the all-`Nat` module fill. -/
theorem drawDark_eq_drawModuleAt (S : Nat) (fg : Color) (offset ms : Int) (row col : Nat)
    (buf : ByteBuf) (hoff : 0 ≤ offset) (hms : 0 ≤ ms) :
    drawDark S fg offset ms row col buf
      = drawModuleAt S fg (offset.toNat + col * ms.toNat) (offset.toNat + row * ms.toNat)
          ms.toNat buf := by
  obtain ⟨oN, rfl⟩ : ∃ n : Nat, offset = (n : Int) := ⟨offset.toNat, (Int.toNat_of_nonneg hoff).symm⟩
  obtain ⟨mN, rfl⟩ : ∃ n : Nat, ms = (n : Int) := ⟨ms.toNat, (Int.toNat_of_nonneg hms).symm⟩
  unfold drawDark drawModuleAt drawRowAt
  simp only [Int.toNat_natCast]
  apply List.foldl_ext
  intro b y _
  apply List.foldl_ext
  intro b2 x _
  have hguard : (((oN : Int) + (col : Int) * (mN : Int) + (x : Int) < (S : Int)
        ∧ (oN : Int) + (row : Int) * (mN : Int) + (y : Int) < (S : Int)))
      ↔ ((oN + col * mN + x < S ∧ oN + row * mN + y < S)) := by
    constructor <;> intro h <;> constructor <;>
      [exact_mod_cast h.1; exact_mod_cast h.2; exact_mod_cast h.1; exact_mod_cast h.2]
  rw [if_congr hguard rfl rfl]
  by_cases hg : oN + col * mN + x < S ∧ oN + row * mN + y < S
  · rw [if_pos hg, if_pos hg]
    have hidx : (((oN : Int) + (row : Int) * (mN : Int) + (y : Int)) * (S : Int)
          + ((oN : Int) + (col : Int) * (mN : Int) + (x : Int))) * 4
        = ((((oN + row * mN + y) * S + (oN + col * mN + x)) * 4 : Nat) : Int) := by
      push_cast
      ring
    rw [hidx]
    have h1 : (((((oN + row * mN + y) * S + (oN + col * mN + x)) * 4 : Nat) : Int) + 1)
        = ((((oN + row * mN + y) * S + (oN + col * mN + x)) * 4 + 1 : Nat) : Int) := by
      push_cast; ring
    have h2 : (((((oN + row * mN + y) * S + (oN + col * mN + x)) * 4 : Nat) : Int) + 2)
        = ((((oN + row * mN + y) * S + (oN + col * mN + x)) * 4 + 2 : Nat) : Int) := by
      push_cast; ring
    have h3 : (((((oN + row * mN + y) * S + (oN + col * mN + x)) * 4 : Nat) : Int) + 3)
        = ((((oN + row * mN + y) * S + (oN + col * mN + x)) * 4 + 3 : Nat) : Int) := by
      push_cast; ring
    rw [h1, h2, h3]
  · rw [if_neg hg, if_neg hg]

theorem drawRowAt_size (S : Nat) (fg : Color) (startX startY y m : Nat) (b : ByteBuf) :
    (drawRowAt S fg startX startY y m b).size = b.size := by
  unfold drawRowAt
  exact foldl_size_invariant _ (fun b2 x => by split <;> simp [ByteBuf.size_write]) _ _

theorem drawModuleAt_size (S : Nat) (fg : Color) (startX startY m : Nat) (b : ByteBuf) :
    (drawModuleAt S fg startX startY m b).size = b.size := by
  unfold drawModuleAt
  exact foldl_size_invariant _ (fun b2 y => drawRowAt_size ..) _ _

theorem drawRowAt_data (S : Nat) (fg : Color) (startX startY y m : Nat) (b : ByteBuf)
    (hsz : b.size = S * S * 4) (px py k : Nat) (hpx : px < S) (hpy : py < S) (hk : k < 4) :
    (drawRowAt S fg startX startY y m b).data ((py * S + px) * 4 + k)
      = if py = startY + y ∧ startX ≤ px ∧ px < startX + m then fg.channel k
        else b.data ((py * S + px) * 4 + k) := by
  induction m with
  | zero =>
    rw [if_neg (by omega)]
    rfl
  | succ m ih =>
    unfold drawRowAt at ih ⊢
    rw [List.range_succ, List.foldl_append, List.foldl_cons, List.foldl_nil]
    have hps : ((List.range m).foldl (fun b2 x =>
        if startX + x < S ∧ startY + y < S then
          (((b2.write ((((startY + y) * S + (startX + x)) * 4 : Nat)) fg.r).write
            ((((startY + y) * S + (startX + x)) * 4 + 1 : Nat)) fg.g).write
            ((((startY + y) * S + (startX + x)) * 4 + 2 : Nat)) fg.b).write
            ((((startY + y) * S + (startX + x)) * 4 + 3 : Nat)) 255
        else b2) b).size = S * S * 4 := by
      rw [foldl_size_invariant _ (fun b2 x => by split <;> simp [ByteBuf.size_write]) _ _]
      exact hsz
    by_cases hg : startX + m < S ∧ startY + y < S
    · rw [if_pos hg]
      rw [ByteBuf.write_data_nat, ByteBuf.write_data_nat, ByteBuf.write_data_nat,
        ByteBuf.write_data_nat]
      simp only [ByteBuf.size_write, hps]
      have hb3 : ((startY + y) * S + (startX + m)) * 4 + 3 < S * S * 4 := by
        have h1 : (startY + y) * S + (startX + m) < S * S := pixel_lt S _ _ hg.1 hg.2
        omega
      have hinj := fun (c : Nat) (hc : c < 4) =>
        pixel_index_inj S px py (startX + m) (startY + y) k c hpx hg.1 hk hc
      by_cases h3 : (py * S + px) * 4 + k = ((startY + y) * S + (startX + m)) * 4 + 3
          ∧ ((startY + y) * S + (startX + m)) * 4 + 3 < S * S * 4
      · rw [if_pos h3]
        obtain ⟨e1, e2, e3⟩ := (hinj 3 (by omega)).mp h3.1
        rw [if_pos ⟨by omega, by omega, by omega⟩]
        simp [Color.channel, e3]
      · rw [if_neg h3]
        by_cases h2 : (py * S + px) * 4 + k = ((startY + y) * S + (startX + m)) * 4 + 2
            ∧ ((startY + y) * S + (startX + m)) * 4 + 2 < S * S * 4
        · rw [if_pos h2]
          obtain ⟨e1, e2, e3⟩ := (hinj 2 (by omega)).mp h2.1
          rw [if_pos ⟨by omega, by omega, by omega⟩]
          simp [Color.channel, e3]
        · rw [if_neg h2]
          by_cases h1 : (py * S + px) * 4 + k = ((startY + y) * S + (startX + m)) * 4 + 1
              ∧ ((startY + y) * S + (startX + m)) * 4 + 1 < S * S * 4
          · rw [if_pos h1]
            obtain ⟨e1, e2, e3⟩ := (hinj 1 (by omega)).mp h1.1
            rw [if_pos ⟨by omega, by omega, by omega⟩]
            simp [Color.channel, e3]
          · rw [if_neg h1]
            by_cases h0 : (py * S + px) * 4 + k = ((startY + y) * S + (startX + m)) * 4
                ∧ ((startY + y) * S + (startX + m)) * 4 < S * S * 4
            · rw [if_pos h0]
              have h0' : (py * S + px) * 4 + k = ((startY + y) * S + (startX + m)) * 4 + 0 := by
                omega
              obtain ⟨e1, e2, e3⟩ := (hinj 0 (by omega)).mp h0'
              rw [if_pos ⟨by omega, by omega, by omega⟩]
              simp [Color.channel, e3]
            · rw [if_neg h0, ih]
              by_cases hhit : px = startX + m ∧ py = startY + y
              · exfalso
                have hq : (py * S + px) * 4 + k = ((startY + y) * S + (startX + m)) * 4 + k := by
                  rw [hhit.1, hhit.2]
                interval_cases k
                · exact h0 ⟨by omega, by omega⟩
                · exact h1 ⟨by omega, by omega⟩
                · exact h2 ⟨by omega, by omega⟩
                · exact h3 ⟨by omega, by omega⟩
              · by_cases hcm : py = startY + y ∧ startX ≤ px ∧ px < startX + m
                · rw [if_pos hcm, if_pos (by omega)]
                · rw [if_neg hcm, if_neg (by omega)]
    · rw [if_neg hg, ih]
      by_cases hcm : py = startY + y ∧ startX ≤ px ∧ px < startX + m
      · rw [if_pos hcm, if_pos (by omega)]
      · rw [if_neg hcm, if_neg (by omega)]

theorem drawModuleAt_data (S : Nat) (fg : Color) (startX startY m : Nat) (b : ByteBuf)
    (hsz : b.size = S * S * 4) (px py k : Nat) (hpx : px < S) (hpy : py < S) (hk : k < 4) :
    (drawModuleAt S fg startX startY m b).data ((py * S + px) * 4 + k)
      = if startX ≤ px ∧ px < startX + m ∧ startY ≤ py ∧ py < startY + m then fg.channel k
        else b.data ((py * S + px) * 4 + k) := by
  suffices h : ∀ n : Nat, ((List.range n).foldl (fun b y => drawRowAt S fg startX startY y m b)
        b).data ((py * S + px) * 4 + k)
      = if startX ≤ px ∧ px < startX + m ∧ startY ≤ py ∧ py < startY + n then fg.channel k
        else b.data ((py * S + px) * 4 + k) by
    exact h m
  intro n
  induction n with
  | zero =>
    rw [if_neg (by omega)]
    rfl
  | succ n ih =>
    rw [List.range_succ, List.foldl_append, List.foldl_cons, List.foldl_nil]
    have hps : ((List.range n).foldl (fun b y => drawRowAt S fg startX startY y m b) b).size
        = S * S * 4 := by
      rw [foldl_size_invariant _ (fun b2 y => drawRowAt_size ..) _ _]
      exact hsz
    rw [drawRowAt_data S fg startX startY n m _ hps px py k hpx hpy hk, ih]
    by_cases hrow : py = startY + n ∧ startX ≤ px ∧ px < startX + m
    · rw [if_pos hrow, if_pos (by omega)]
    · rw [if_neg hrow]
      by_cases hcn : startX ≤ px ∧ px < startX + m ∧ startY ≤ py ∧ py < startY + n
      · rw [if_pos hcn, if_pos (by omega)]
      · rw [if_neg hcn, if_neg (by omega)]

/-- The half-open pixel square of module index `idx` along one axis:
`offset + idx*moduleSize ≤ coord < offset + (idx+1)*moduleSize`. -/
def inSquare (offset ms : Int) (idx coord : Nat) : Prop :=
  offset + (idx : Int) * ms ≤ (coord : Int) ∧ (coord : Int) < offset + (idx : Int) * ms + ms

instance (offset ms : Int) (idx coord : Nat) : Decidable (inSquare offset ms idx coord) := by
  unfold inSquare
  infer_instance

theorem inSquare_natCast (oN mN idx coord : Nat) :
    inSquare (oN : Int) (mN : Int) idx coord
      ↔ (oN + idx * mN ≤ coord ∧ coord < oN + idx * mN + mN) := by
  unfold inSquare
  constructor
  · intro h
    exact ⟨by exact_mod_cast h.1, by exact_mod_cast h.2⟩
  · intro h
    exact ⟨by exact_mod_cast h.1, by exact_mod_cast h.2⟩

/-- Pixel-level reading of `drawDark` under the invariants the geometry
guarantees (non-negative offset, non-negative module size). -/
theorem drawDark_data (S : Nat) (fg : Color) (offset ms : Int) (row col : Nat) (b : ByteBuf)
    (hoff : 0 ≤ offset) (hms : 0 ≤ ms) (hsz : b.size = S * S * 4)
    (px py k : Nat) (hpx : px < S) (hpy : py < S) (hk : k < 4) :
    (drawDark S fg offset ms row col b).data ((py * S + px) * 4 + k)
      = if inSquare offset ms col px ∧ inSquare offset ms row py then fg.channel k
        else b.data ((py * S + px) * 4 + k) := by
  rw [drawDark_eq_drawModuleAt S fg offset ms row col b hoff hms]
  rw [drawModuleAt_data S fg _ _ _ b hsz px py k hpx hpy hk]
  obtain ⟨oN, rfl⟩ : ∃ n : Nat, offset = (n : Int) := ⟨offset.toNat, (Int.toNat_of_nonneg hoff).symm⟩
  obtain ⟨mN, rfl⟩ : ∃ n : Nat, ms = (n : Int) := ⟨ms.toNat, (Int.toNat_of_nonneg hms).symm⟩
  simp only [Int.toNat_natCast]
  have hiff : (oN + col * mN ≤ px ∧ px < oN + col * mN + mN
        ∧ oN + row * mN ≤ py ∧ py < oN + row * mN + mN)
      ↔ (inSquare (oN : Int) (mN : Int) col px ∧ inSquare (oN : Int) (mN : Int) row py) := by
    rw [inSquare_natCast, inSquare_natCast]
    omega
  exact if_congr hiff rfl rfl

theorem drawDark_size (S : Nat) (fg : Color) (offset ms : Int) (row col : Nat) (b : ByteBuf) :
    (drawDark S fg offset ms row col b).size = b.size := by
  unfold drawDark
  refine foldl_size_invariant _ (fun b1 y => ?_) _ _
  refine foldl_size_invariant _ (fun b2 x => ?_) _ _
  simp [apply_ite ByteBuf.size, ByteBuf.size_write]

/-- `(px, py)` lies in the square of some dark module of the matrix. -/
def coveredByDark (isDark : Nat → Nat → Bool) (mc : Nat) (offset ms : Int)
    (px py : Nat) : Prop :=
  ∃ r, r < mc ∧ ∃ c, c < mc ∧ isDark r c = true
    ∧ inSquare offset ms c px ∧ inSquare offset ms r py

instance (isDark : Nat → Nat → Bool) (mc : Nat) (offset ms : Int) (px py : Nat) :
    Decidable (coveredByDark isDark mc offset ms px py) := by
  unfold coveredByDark
  infer_instance

theorem drawColsAux (isDark : Nat → Nat → Bool) (S : Nat) (fg : Color) (offset ms : Int)
    (hoff : 0 ≤ offset) (hms : 0 ≤ ms) (r : Nat) (px py k : Nat)
    (hpx : px < S) (hpy : py < S) (hk : k < 4) (n : Nat) (b : ByteBuf)
    (hsz : b.size = S * S * 4) :
    (((List.range n).foldl
        (fun b2 c => if isDark r c then drawDark S fg offset ms r c b2 else b2) b).data
          ((py * S + px) * 4 + k))
      = if ∃ c, c < n ∧ isDark r c = true ∧ inSquare offset ms c px ∧ inSquare offset ms r py
        then fg.channel k else b.data ((py * S + px) * 4 + k) := by
  induction n with
  | zero =>
    rw [if_neg (by rintro ⟨c, hc, -⟩; omega)]
    rfl
  | succ n ih =>
    rw [List.range_succ, List.foldl_append, List.foldl_cons, List.foldl_nil]
    have hps : ((List.range n).foldl
        (fun b2 c => if isDark r c then drawDark S fg offset ms r c b2 else b2) b).size
        = S * S * 4 := by
      rw [foldl_size_invariant _ (fun b2 c => by split <;> simp [drawDark_size]) _ _]
      exact hsz
    by_cases hdark : isDark r n = true
    · rw [if_pos hdark]
      rw [drawDark_data S fg offset ms r n _ hoff hms hps px py k hpx hpy hk, ih]
      by_cases hhit : inSquare offset ms n px ∧ inSquare offset ms r py
      · rw [if_pos hhit, if_pos ⟨n, by omega, hdark, hhit.1, hhit.2⟩]
      · rw [if_neg hhit]
        by_cases hex : ∃ c, c < n ∧ isDark r c = true ∧ inSquare offset ms c px
            ∧ inSquare offset ms r py
        · rw [if_pos hex]
          obtain ⟨c, hc, h⟩ := hex
          rw [if_pos ⟨c, by omega, h⟩]
        · rw [if_neg hex]
          rw [if_neg ?_]
          rintro ⟨c, hc, hd, h1, h2⟩
          by_cases hcn : c = n
          · exact hhit ⟨hcn ▸ h1, h2⟩
          · exact hex ⟨c, by omega, hd, h1, h2⟩
    · rw [if_neg hdark, ih]
      by_cases hex : ∃ c, c < n ∧ isDark r c = true ∧ inSquare offset ms c px
          ∧ inSquare offset ms r py
      · rw [if_pos hex]
        obtain ⟨c, hc, h⟩ := hex
        rw [if_pos ⟨c, by omega, h⟩]
      · rw [if_neg hex]
        rw [if_neg ?_]
        rintro ⟨c, hc, hd, h1, h2⟩
        by_cases hcn : c = n
        · rw [hcn] at hd
          exact hdark hd
        · exact hex ⟨c, by omega, hd, h1, h2⟩

theorem drawRowsAux (isDark : Nat → Nat → Bool) (S : Nat) (fg : Color) (offset ms : Int)
    (hoff : 0 ≤ offset) (hms : 0 ≤ ms) (mc : Nat) (px py k : Nat)
    (hpx : px < S) (hpy : py < S) (hk : k < 4) (n : Nat) (b : ByteBuf)
    (hsz : b.size = S * S * 4) :
    (((List.range n).foldl
        (fun b1 row => (List.range mc).foldl
          (fun b2 col => if isDark row col then drawDark S fg offset ms row col b2 else b2)
          b1) b).data ((py * S + px) * 4 + k))
      = if ∃ r, r < n ∧ ∃ c, c < mc ∧ isDark r c = true
            ∧ inSquare offset ms c px ∧ inSquare offset ms r py
        then fg.channel k else b.data ((py * S + px) * 4 + k) := by
  induction n with
  | zero =>
    rw [if_neg (by rintro ⟨r, hr, -⟩; omega)]
    rfl
  | succ n ih =>
    rw [List.range_succ, List.foldl_append, List.foldl_cons, List.foldl_nil]
    have hps : ((List.range n).foldl
        (fun b1 row => (List.range mc).foldl
          (fun b2 col => if isDark row col then drawDark S fg offset ms row col b2 else b2)
          b1) b).size = S * S * 4 := by
      rw [foldl_size_invariant _ (fun b1 row => by
        exact foldl_size_invariant _ (fun b2 col => by split <;> simp [drawDark_size]) _ _) _ _]
      exact hsz
    rw [drawColsAux isDark S fg offset ms hoff hms n px py k hpx hpy hk mc _ hps, ih]
    by_cases hrow : ∃ c, c < mc ∧ isDark n c = true ∧ inSquare offset ms c px
        ∧ inSquare offset ms n py
    · obtain ⟨c, hc, h⟩ := hrow
      rw [if_pos ⟨c, hc, h⟩]
      by_cases hex : ∃ r, r < n ∧ ∃ c, c < mc ∧ isDark r c = true ∧ inSquare offset ms c px
          ∧ inSquare offset ms r py
      · rw [if_pos (by obtain ⟨r, hr, hrest⟩ := hex; exact ⟨r, by omega, hrest⟩)]
      · rw [if_pos ⟨n, by omega, c, hc, h⟩]
    · rw [if_neg hrow]
      by_cases hex : ∃ r, r < n ∧ ∃ c, c < mc ∧ isDark r c = true ∧ inSquare offset ms c px
          ∧ inSquare offset ms r py
      · rw [if_pos hex]
        obtain ⟨r, hr, hrest⟩ := hex
        rw [if_pos ⟨r, by omega, hrest⟩]
      · rw [if_neg hex]
        rw [if_neg ?_]
        rintro ⟨r, hr, hrest⟩
        by_cases hrn : r = n
        · exact hrow (hrn ▸ hrest)
        · exact hex ⟨r, by omega, hrest⟩

/-- Transcription of the raster construction of `generatePNG`
(`src/qr-generator.ts` lines 116–158): geometry, `new
Uint8Array(actualSize*actualSize*4)`, the background fill, then the
row-major module loop painting every dark module.  The PNG bitstream
encoding (`UPNG.encode`) is an external collaborator and is not modelled. -/
def generatePNGData (isDark : Nat → Nat → Bool) (moduleCount : Nat)
    (size margin qzone : Nat) (fg bg : Color) : ByteBuf :=
  (List.range moduleCount).foldl
    (fun b1 row => (List.range moduleCount).foldl
      (fun b2 col =>
        if isDark row col then
          drawDark size fg (pngGeometry moduleCount size margin qzone).offset
            (pngGeometry moduleCount size margin qzone).moduleSize row col b2
        else b2)
      b1)
    (fillBackground size bg (ByteBuf.alloc (size * size * 4)))

/-- The RGB bytes of pixel `(px, py)` of a raster buffer. -/
def ByteBuf.pixel (b : ByteBuf) (S px py : Nat) : Color :=
  ⟨b.data ((py * S + px) * 4), b.data ((py * S + px) * 4 + 1), b.data ((py * S + px) * 4 + 2)⟩

theorem generatePNGData_size (isDark : Nat → Nat → Bool) (mc size margin qzone : Nat)
    (fg bg : Color) :
    (generatePNGData isDark mc size margin qzone fg bg).size = size * size * 4 := by
  unfold generatePNGData
  rw [foldl_size_invariant _ (fun b1 row => by
    exact foldl_size_invariant _ (fun b2 col => by split <;> simp [drawDark_size]) _ _) _ _]
  rw [fillBackground_size]
  rfl

/-- Byte-level characterization of the produced raster. -/
theorem generatePNGData_byte (isDark : Nat → Nat → Bool) (mc size margin qzone : Nat)
    (fg bg : Color) (px py k : Nat) (hpx : px < size) (hpy : py < size) (hk : k < 4) :
    (generatePNGData isDark mc size margin qzone fg bg).data ((py * size + px) * 4 + k)
      = if coveredByDark isDark mc (pngGeometry mc size margin qzone).offset
            (pngGeometry mc size margin qzone).moduleSize px py
        then fg.channel k else bg.channel k := by
  unfold generatePNGData
  have hfillsz : (fillBackground size bg (ByteBuf.alloc (size * size * 4))).size
      = size * size * 4 := by
    rw [fillBackground_size]
    rfl
  rw [drawRowsAux isDark size fg _ _ (pngGeometry_offset_nonneg mc size margin qzone)
    (by have := pngGeometry_moduleSize_pos mc size margin qzone; omega)
    mc px py k hpx hpy hk mc _ hfillsz]
  have hq : ((py * size + px) * 4 + k) < 4 * (size * size)
      ∧ ((py * size + px) * 4 + k) < (ByteBuf.alloc (size * size * 4)).size := by
    have h1 : py * size + px < size * size := pixel_lt size px py hpx hpy
    constructor
    · omega
    · show (py * size + px) * 4 + k < size * size * 4
      omega
  rw [fillBackground_data]
  rw [if_pos hq]
  have hmod : ((py * size + px) * 4 + k) % 4 = k := by omega
  rw [hmod]
  rfl

/-- C3: a pixel `(x, y)` of the raster is the foreground color iff it lies in
the half-open square `[offsetPx + col*moduleSizePx, offsetPx +
(col+1)*moduleSizePx) × [offsetPx + row*moduleSizePx, …)` of some dark module,
and the background color otherwise; module parts outside the canvas are
silently clipped (only coordinates `< targetSize` exist in the buffer). -/
theorem raster_pixel_characterization (isDark : Nat → Nat → Bool)
    (mc size margin qzone : Nat) (fg bg : Color) (hfg : fg.valid) (hbg : bg.valid)
    (px py : Nat) (hpx : px < size) (hpy : py < size) :
    (generatePNGData isDark mc size margin qzone fg bg).pixel size px py
      = if coveredByDark isDark mc (pngGeometry mc size margin qzone).offset
            (pngGeometry mc size margin qzone).moduleSize px py
        then fg else bg := by
  obtain ⟨hr, hg, hb⟩ := hfg
  obtain ⟨hr2, hg2, hb2⟩ := hbg
  unfold ByteBuf.pixel
  have h0 := generatePNGData_byte isDark mc size margin qzone fg bg px py 0 hpx hpy (by omega)
  rw [Nat.add_zero] at h0
  rw [h0, generatePNGData_byte isDark mc size margin qzone fg bg px py 1 hpx hpy (by omega),
    generatePNGData_byte isDark mc size margin qzone fg bg px py 2 hpx hpy (by omega)]
  by_cases hc : coveredByDark isDark mc (pngGeometry mc size margin qzone).offset
      (pngGeometry mc size margin qzone).moduleSize px py
  · simp only [if_pos hc, Color.channel]
    cases fg
    simp only [Color.mk.injEq]
    refine ⟨?_, ?_, ?_⟩ <;> simp_all <;> omega
  · simp only [if_neg hc, Color.channel]
    cases bg
    simp only [Color.mk.injEq]
    refine ⟨?_, ?_, ?_⟩ <;> simp_all <;> omega

theorem raster_pixel_characterization_witness :
    (generatePNGData (fun _ _ => true) 21 200 1 0 ⟨0, 0, 0⟩ ⟨255, 255, 255⟩).pixel 200 5 5
      = if coveredByDark (fun _ _ => true) 21 (pngGeometry 21 200 1 0).offset
            (pngGeometry 21 200 1 0).moduleSize 5 5
        then (⟨0, 0, 0⟩ : Color) else ⟨255, 255, 255⟩ :=
  raster_pixel_characterization (fun _ _ => true) 21 200 1 0 ⟨0, 0, 0⟩ ⟨255, 255, 255⟩
    (by exact ⟨by decide, by decide, by decide⟩) (by exact ⟨by decide, by decide, by decide⟩)
    5 5 (by omega) (by omega)

theorem byte_index_decompose (S j : Nat) (h : j < S * S * 4) :
    ∃ px py k, px < S ∧ py < S ∧ k < 4 ∧ j = (py * S + px) * 4 + k := by
  have hS : 0 < S := by
    rcases Nat.eq_zero_or_pos S with h0 | h0
    · subst h0; omega
    · exact h0
  obtain ⟨A, B, hAB, hB⟩ : ∃ A B, j / 4 = S * A + B ∧ B < S := by
    refine ⟨(j / 4) / S, (j / 4) % S, (Nat.div_add_mod (j / 4) S).symm, Nat.mod_lt _ hS⟩
  have hj4 : j / 4 < S * S := by
    have := Nat.div_add_mod j 4
    have h4 : 4 * (j / 4) ≤ j := by omega
    have : 4 * (j / 4) < S * S * 4 := by omega
    omega
  have hA : A < S := by
    have h1 : S * A < S * S := by omega
    exact Nat.lt_of_mul_lt_mul_left h1
  refine ⟨B, A, j % 4, hB, hA, by omega, ?_⟩
  have h2 : A * S + B = j / 4 := by rw [Nat.mul_comm A S]; omega
  have h3 : 4 * (j / 4) + j % 4 = j := Nat.div_add_mod j 4
  omega

/-- C2: the raster renderer always produces a buffer of exactly
`targetSize*targetSize*4` bytes (the canvas stays `targetSize × targetSize`
regardless of rounding loss), every byte is determined (a channel byte of
the foreground or the background color), and every alpha byte is 255. -/
theorem raster_buffer_invariants (isDark : Nat → Nat → Bool)
    (mc size margin qzone : Nat) (fg bg : Color) :
    (generatePNGData isDark mc size margin qzone fg bg).size = size * size * 4
    ∧ (∀ j, j < size * size * 4 → j % 4 = 3 →
        (generatePNGData isDark mc size margin qzone fg bg).data j = 255)
    ∧ (∀ j, j < size * size * 4 →
        (generatePNGData isDark mc size margin qzone fg bg).data j = fg.channel (j % 4)
          ∨ (generatePNGData isDark mc size margin qzone fg bg).data j
              = bg.channel (j % 4)) := by
  refine ⟨generatePNGData_size isDark mc size margin qzone fg bg, ?_, ?_⟩
  · intro j hj hj4
    obtain ⟨px, py, k, hpx, hpy, hk, rfl⟩ := byte_index_decompose size j hj
    have hk3 : k = 3 := by omega
    rw [generatePNGData_byte isDark mc size margin qzone fg bg px py k hpx hpy hk]
    subst hk3
    split <;> simp [Color.channel]
  · intro j hj
    obtain ⟨px, py, k, hpx, hpy, hk, rfl⟩ := byte_index_decompose size j hj
    have hmod : ((py * size + px) * 4 + k) % 4 = k := by omega
    rw [generatePNGData_byte isDark mc size margin qzone fg bg px py k hpx hpy hk, hmod]
    split
    · left; rfl
    · right; rfl

theorem raster_buffer_invariants_witness :
    (generatePNGData (fun _ _ => true) 21 10 1 0 ⟨0, 0, 0⟩ ⟨255, 255, 255⟩).size = 10 * 10 * 4
    ∧ (generatePNGData (fun _ _ => true) 21 10 1 0 ⟨0, 0, 0⟩ ⟨255, 255, 255⟩).data 3 = 255 :=
  ⟨(raster_buffer_invariants (fun _ _ => true) 21 10 1 0 ⟨0, 0, 0⟩ ⟨255, 255, 255⟩).1,
    (raster_buffer_invariants (fun _ _ => true) 21 10 1 0 ⟨0, 0, 0⟩ ⟨255, 255, 255⟩).2.1 3
      (by omega) (by omega)⟩

/-- C9: under a valid parsed configuration every guarded pixel write of the
module loop stays inside the allocated buffer: `offsetPx` is non-negative, so
the code's one-sided clip (`pixelX < actualSize && pixelY < actualSize`, with
no lower-bound check) suffices, and the byte index plus 3 is below
`targetSize*targetSize*4`. -/
theorem raster_writes_in_bounds (mc s m q : Nat) (row col x y : Nat)
    (hs : 1 ≤ s) (hrow : row < mc) (hcol : col < mc)
    (hx : (x : Int) < (pngGeometry mc s m q).moduleSize)
    (hy : (y : Int) < (pngGeometry mc s m q).moduleSize)
    (hgx : (pngGeometry mc s m q).offset + (col : Int) * (pngGeometry mc s m q).moduleSize
        + (x : Int) < (s : Int))
    (hgy : (pngGeometry mc s m q).offset + (row : Int) * (pngGeometry mc s m q).moduleSize
        + (y : Int) < (s : Int)) :
    0 ≤ (pngGeometry mc s m q).offset
    ∧ 0 ≤ (((pngGeometry mc s m q).offset + (row : Int) * (pngGeometry mc s m q).moduleSize
          + (y : Int)) * (s : Int)
        + ((pngGeometry mc s m q).offset + (col : Int) * (pngGeometry mc s m q).moduleSize
          + (x : Int))) * 4
    ∧ (((pngGeometry mc s m q).offset + (row : Int) * (pngGeometry mc s m q).moduleSize
          + (y : Int)) * (s : Int)
        + ((pngGeometry mc s m q).offset + (col : Int) * (pngGeometry mc s m q).moduleSize
          + (x : Int))) * 4 + 3 < (s : Int) * (s : Int) * 4 := by
  have hoff := pngGeometry_offset_nonneg mc s m q
  have hms := pngGeometry_moduleSize_pos mc s m q
  set offset := (pngGeometry mc s m q).offset with hoffdef
  set ms := (pngGeometry mc s m q).moduleSize with hmsdef
  have hpx0 : 0 ≤ offset + (col : Int) * ms + (x : Int) := by
    have h1 : 0 ≤ (col : Int) * ms := mul_nonneg (Int.natCast_nonneg col) (by omega)
    have h2 : 0 ≤ (x : Int) := Int.natCast_nonneg x
    omega
  have hpy0 : 0 ≤ offset + (row : Int) * ms + (y : Int) := by
    have h1 : 0 ≤ (row : Int) * ms := mul_nonneg (Int.natCast_nonneg row) (by omega)
    have h2 : 0 ≤ (y : Int) := Int.natCast_nonneg y
    omega
  set pixelX := offset + (col : Int) * ms + (x : Int) with hpxdef
  set pixelY := offset + (row : Int) * ms + (y : Int) with hpydef
  have hs0 : (0 : Int) ≤ (s : Int) := Int.natCast_nonneg s
  have hmul : (pixelY + 1) * (s : Int) ≤ (s : Int) * (s : Int) := by
    have : pixelY + 1 ≤ (s : Int) := by omega
    exact mul_le_mul_of_nonneg_right this hs0
  have hlt : pixelY * (s : Int) + pixelX < (s : Int) * (s : Int) := by
    have hexp : (pixelY + 1) * (s : Int) = pixelY * (s : Int) + (s : Int) := by ring
    omega
  have hge : 0 ≤ pixelY * (s : Int) + pixelX := by
    have : 0 ≤ pixelY * (s : Int) := mul_nonneg hpy0 hs0
    omega
  refine ⟨hoff, by omega, by omega⟩

theorem raster_writes_in_bounds_witness :
    0 ≤ (pngGeometry 21 200 1 0).offset
    ∧ 0 ≤ (((pngGeometry 21 200 1 0).offset + (0 : Int) * (pngGeometry 21 200 1 0).moduleSize
          + (0 : Int)) * (200 : Int)
        + ((pngGeometry 21 200 1 0).offset + (0 : Int) * (pngGeometry 21 200 1 0).moduleSize
          + (0 : Int))) * 4
    ∧ (((pngGeometry 21 200 1 0).offset + (0 : Int) * (pngGeometry 21 200 1 0).moduleSize
          + (0 : Int)) * (200 : Int)
        + ((pngGeometry 21 200 1 0).offset + (0 : Int) * (pngGeometry 21 200 1 0).moduleSize
          + (0 : Int))) * 4 + 3 < (200 : Int) * (200 : Int) * 4 := by
  have h := raster_writes_in_bounds 21 200 1 0 0 0 0 0 (by omega) (by omega) (by omega)
    (by decide) (by decide) (by decide) (by decide)
  exact_mod_cast h

/-- The whitespace skipped by JS `parseInt`: ECMAScript *WhiteSpace* — TAB,
VT, FF, ZWNBSP and the `Space_Separator` code points (SP, NBSP, U+1680,
U+2000–U+200A, U+202F, U+205F, U+3000) — together with the
*LineTerminator* code points LF, CR, LS (U+2028) and PS (U+2029). -/
def jsWhitespace (c : Char) : Bool :=
  decide (c.toNat = 9 ∨ c.toNat = 10 ∨ c.toNat = 11 ∨ c.toNat = 12 ∨ c.toNat = 13
    ∨ c.toNat = 32 ∨ c.toNat = 160 ∨ c.toNat = 5760
    ∨ (8192 ≤ c.toNat ∧ c.toNat ≤ 8202) ∨ c.toNat = 8232 ∨ c.toNat = 8233
    ∨ c.toNat = 8239 ∨ c.toNat = 8287 ∨ c.toNat = 12288 ∨ c.toNat = 65279)

/-- Decimal digit value of a character, `none` otherwise. -/
def decDigit (c : Char) : Option Nat :=
  if 48 ≤ c.toNat ∧ c.toNat ≤ 57 then some (c.toNat - 48) else none

/-- Hexadecimal digit value of a character (both cases), `none` otherwise. -/
def hexDigit (c : Char) : Option Nat :=
  if 48 ≤ c.toNat ∧ c.toNat ≤ 57 then some (c.toNat - 48)
  else if 97 ≤ c.toNat ∧ c.toNat ≤ 102 then some (c.toNat - 87)
  else if 65 ≤ c.toNat ∧ c.toNat ≤ 70 then some (c.toNat - 55)
  else none

/-- Model of JS `parseInt(s, radix)` as used by `parseColor`: skip leading
whitespace, accept an optional `+` sign, for radix 16 strip an optional
`0x`/`0X` prefix, then read the maximal digit prefix; `none` models `NaN`
(no digits).  A `-` sign (which JS would accept, yielding a negative number)
cannot occur here: decimal components come from splitting on `-`, and a hex
candidate contains no `-` at all, so inputs of `parseInt` never start with
`-` and the result is always non-negative. -/
def jsParseInt (digit : Char → Option Nat) (radix : Nat) (hexpfx : Bool)
    (cs : List Char) : Option Nat :=
  let cs1 := cs.dropWhile (fun c => jsWhitespace c)
  let cs2 := if cs1.head? = some '+' then cs1.tail else cs1
  let cs3 := if hexpfx ∧ (cs2.take 2 = ['0', 'x'] ∨ cs2.take 2 = ['0', 'X'])
    then cs2.drop 2 else cs2
  let ds := cs3.takeWhile (fun c => (digit c).isSome)
  if ds.isEmpty then none
  else some (ds.foldl (fun a c => a * radix + (digit c).getD 0) 0)

/-- `parseInt(part, 10)`. -/
def jsParseInt10 (cs : List Char) : Option Nat := jsParseInt decDigit 10 false cs

/-- `parseInt(pair, 16)`. -/
def jsParseInt16 (cs : List Char) : Option Nat := jsParseInt hexDigit 16 true cs

/-- JS `String.prototype.split` with a single-character separator. -/
def splitOnChar (sep : Char) : List Char → List (List Char)
  | [] => [[]]
  | c :: rest =>
    if c = sep then [] :: splitOnChar sep rest
    else
      match splitOnChar sep rest with
      | [] => [[c]]
      | p :: ps => (c :: p) :: ps

/-- Transcription of `parseColor` (`src/validators.ts` lines 34–85) on the
string's code units; errors carry the thrown `QRParamError` messages.  The
source's per-component check `isNaN(num) || num < 0 || num > 255` is the
`none` / `> 255` test here (`num < 0` is unreachable, see `jsParseInt`). -/
def parseColorL (cs : List Char) : Except String Color :=
  if cs.isEmpty then .error "Color parameter is required"
  else if cs.contains '-' then
    let parts := splitOnChar '-' cs
    if parts.length = 3 then
      match jsParseInt10 (parts.getD 0 []), jsParseInt10 (parts.getD 1 []),
          jsParseInt10 (parts.getD 2 []) with
      | some r, some g, some b =>
        if r ≤ 255 ∧ g ≤ 255 ∧ b ≤ 255 then .ok ⟨r, g, b⟩
        else .error "RGB values must be between 0 and 255"
      | _, _, _ => .error "RGB values must be between 0 and 255"
    else .error "Invalid color format. Use RGB format like 255-0-0"
  else
    let hex := if cs.head? = some '#' then cs.tail else cs
    if hex.length = 3 then
      match jsParseInt16 [hex.getD 0 ' ', hex.getD 0 ' '],
          jsParseInt16 [hex.getD 1 ' ', hex.getD 1 ' '],
          jsParseInt16 [hex.getD 2 ' ', hex.getD 2 ' '] with
      | some r, some g, some b => .ok ⟨r, g, b⟩
      | _, _, _ => .error "Invalid hex color format"
    else if hex.length = 6 then
      match jsParseInt16 [hex.getD 0 ' ', hex.getD 1 ' '],
          jsParseInt16 [hex.getD 2 ' ', hex.getD 3 ' '],
          jsParseInt16 [hex.getD 4 ' ', hex.getD 5 ' '] with
      | some r, some g, some b => .ok ⟨r, g, b⟩
      | _, _, _ => .error "Invalid hex color format"
    else .error "Invalid color format. Use RGB decimal (255-0-0) or hex (ff0000, f00)"

/-- `parseColor` on a Lean string. -/
def parseColor (s : String) : Except String Color := parseColorL s.data

/-- Digit character of `n.toString(16)` (lowercase). -/
def toHexChar (n : Nat) : Char :=
  if n < 10 then Char.ofNat (48 + n) else Char.ofNat (87 + n)

/-- JS `n.toString(16)` for a non-negative integer. -/
def natToHex (n : Nat) : List Char :=
  if n < 16 then [toHexChar n]
  else natToHex (n / 16) ++ [toHexChar (n % 16)]
termination_by n
decreasing_by
  exact Nat.div_lt_self (by omega) (by omega)

/-- JS `.padStart(2, '0')`. -/
def padStart2 (cs : List Char) : List Char := List.replicate (2 - cs.length) '0' ++ cs

/-- Transcription of `colorToHex` (`src/qr-generator.ts` lines 18–21). -/
def colorToHexL (c : Color) : List Char :=
  padStart2 (natToHex c.r) ++ padStart2 (natToHex c.g) ++ padStart2 (natToHex c.b)

theorem decDigit_isSome_iff (c : Char) :
    (decDigit c).isSome = true ↔ 48 ≤ c.toNat ∧ c.toNat ≤ 57 := by
  unfold decDigit
  split <;> simp_all

theorem hexDigit_isSome_iff (c : Char) :
    (hexDigit c).isSome = true ↔ ((48 ≤ c.toNat ∧ c.toNat ≤ 57)
      ∨ (97 ≤ c.toNat ∧ c.toNat ≤ 102) ∨ (65 ≤ c.toNat ∧ c.toNat ≤ 70)) := by
  unfold hexDigit
  split_ifs <;> simp_all

theorem char_ne_of_toNat_ne {a b : Char} (h : a.toNat ≠ b.toNat) : a ≠ b :=
  fun he => h (by rw [he])

theorem hexDigit_char_facts (c : Char) (h : (hexDigit c).isSome = true) :
    jsWhitespace c = false ∧ c ≠ '+' ∧ c ≠ '-' ∧ c ≠ '#' ∧ c ≠ 'x' ∧ c ≠ 'X' := by
  have hb := (hexDigit_isSome_iff c).mp h
  refine ⟨?_, ?_, ?_, ?_, ?_, ?_⟩
  · unfold jsWhitespace
    simp only [decide_eq_false_iff_not]
    omega
  · exact char_ne_of_toNat_ne (by show c.toNat ≠ 43; omega)
  · exact char_ne_of_toNat_ne (by show c.toNat ≠ 45; omega)
  · exact char_ne_of_toNat_ne (by show c.toNat ≠ 35; omega)
  · exact char_ne_of_toNat_ne (by show c.toNat ≠ 120; omega)
  · exact char_ne_of_toNat_ne (by show c.toNat ≠ 88; omega)

theorem decDigit_char_facts (c : Char) (h : (decDigit c).isSome = true) :
    jsWhitespace c = false ∧ c ≠ '+' ∧ c ≠ '-' := by
  have hb := (decDigit_isSome_iff c).mp h
  refine ⟨?_, ?_, ?_⟩
  · unfold jsWhitespace
    simp only [decide_eq_false_iff_not]
    omega
  · exact char_ne_of_toNat_ne (by show c.toNat ≠ 43; omega)
  · exact char_ne_of_toNat_ne (by show c.toNat ≠ 45; omega)

/-- `parseInt` on a string that is entirely digits of the radix: no
whitespace/sign/prefix handling fires and the whole string is consumed. -/
theorem jsParseInt_all_digits (digit : Char → Option Nat) (radix : Nat) (hexpfx : Bool)
    (c0 : Char) (rest : List Char)
    (hd : ∀ c ∈ c0 :: rest, (digit c).isSome = true)
    (hnw : jsWhitespace c0 = false) (hplus : c0 ≠ '+')
    (hpre : ¬(hexpfx = true ∧ ((c0 :: rest).take 2 = ['0', 'x']
        ∨ (c0 :: rest).take 2 = ['0', 'X']))) :
    jsParseInt digit radix hexpfx (c0 :: rest)
      = some ((c0 :: rest).foldl (fun a c => a * radix + (digit c).getD 0) 0) := by
  unfold jsParseInt
  have hdrop : (c0 :: rest).dropWhile (fun c => jsWhitespace c) = c0 :: rest := by
    rw [List.dropWhile_cons, if_neg (by simp [hnw])]
  rw [hdrop]
  simp only [List.head?_cons, Option.some.injEq]
  rw [if_neg hplus]
  rw [if_neg hpre]
  have htake : (c0 :: rest).takeWhile (fun c => (digit c).isSome) = c0 :: rest :=
    List.takeWhile_eq_self_iff.mpr hd
  rw [htake]
  rw [if_neg (by simp)]

/-- The value denoted by a decimal digit string, as accumulated by the
`parseInt` model. -/
def decValue (p : List Char) : Nat := p.foldl (fun a c => a * 10 + (decDigit c).getD 0) 0

theorem jsParseInt10_all_digits (p : List Char) (hne : p ≠ [])
    (hd : ∀ c ∈ p, (decDigit c).isSome = true) :
    jsParseInt10 p = some (decValue p) := by
  obtain ⟨c0, rest, rfl⟩ := List.exists_cons_of_ne_nil hne
  have h0 := decDigit_char_facts c0 (hd c0 (List.mem_cons_self _ _))
  exact jsParseInt_all_digits decDigit 10 false c0 rest hd h0.1 h0.2.1 (by simp)

theorem jsParseInt16_pair (a b : Char) (va vb : Nat) (ha : hexDigit a = some va)
    (hb : hexDigit b = some vb) : jsParseInt16 [a, b] = some (va * 16 + vb) := by
  have hsa : (hexDigit a).isSome = true := by rw [ha]; rfl
  have hsb : (hexDigit b).isSome = true := by rw [hb]; rfl
  have hfa := hexDigit_char_facts a hsa
  have hfb := hexDigit_char_facts b hsb
  have hpre : ¬(true = true ∧ (([a, b] : List Char).take 2 = ['0', 'x']
      ∨ ([a, b] : List Char).take 2 = ['0', 'X'])) := by
    rintro ⟨-, h | h⟩
    · have h' : ([a, b] : List Char) = ['0', 'x'] := h
      injection h' with h1 h2
      injection h2 with h3 h4
      exact hfb.2.2.2.2.1 h3
    · have h' : ([a, b] : List Char) = ['0', 'X'] := h
      injection h' with h1 h2
      injection h2 with h3 h4
      exact hfb.2.2.2.2.2 h3
  have hd2 : ∀ c ∈ ([a, b] : List Char), (hexDigit c).isSome = true := by
    intro c hc
    rcases List.mem_cons.mp hc with rfl | hc2
    · exact hsa
    · rcases List.mem_cons.mp hc2 with rfl | hc3
      · exact hsb
      · exact absurd hc3 (List.not_mem_nil c)
  have := jsParseInt_all_digits hexDigit 16 true a [b] hd2 hfa.1 hfa.2.1 hpre
  rw [jsParseInt16, this]
  simp [ha, hb]

theorem splitOnChar_not_mem (sep : Char) (p : List Char) (h : sep ∉ p) :
    splitOnChar sep p = [p] := by
  induction p with
  | nil => rfl
  | cons c rest ih =>
    unfold splitOnChar
    rw [if_neg (by rintro rfl; exact h (List.mem_cons_self _ _))]
    rw [ih (fun hm => h (List.mem_cons_of_mem _ hm))]

theorem splitOnChar_append (sep : Char) (p rest : List Char) (h : sep ∉ p) :
    splitOnChar sep (p ++ sep :: rest) = p :: splitOnChar sep rest := by
  induction p with
  | nil =>
    simp only [List.nil_append]
    rw [splitOnChar]
    rw [if_pos rfl]
  | cons c p2 ih =>
    have hc : c ≠ sep := by rintro rfl; exact h (List.mem_cons_self _ _)
    have h2 : sep ∉ p2 := fun hm => h (List.mem_cons_of_mem _ hm)
    simp only [List.cons_append]
    rw [splitOnChar]
    rw [if_neg hc, ih h2]

theorem splitOnChar_ne_nil (sep : Char) (cs : List Char) : splitOnChar sep cs ≠ [] := by
  cases cs with
  | nil => simp [splitOnChar]
  | cons c rest =>
    unfold splitOnChar
    split
    · simp
    · split <;> simp

theorem not_mem_dash_of_decDigits (p : List Char)
    (hd : ∀ c ∈ p, (decDigit c).isSome = true) : '-' ∉ p := by
  intro hm
  exact (decDigit_char_facts _ (hd _ hm)).2.2 rfl

theorem parseColorL_decimal (p1 p2 p3 : List Char)
    (h1 : p1 ≠ []) (h2 : p2 ≠ []) (h3 : p3 ≠ [])
    (hd1 : ∀ c ∈ p1, (decDigit c).isSome = true)
    (hd2 : ∀ c ∈ p2, (decDigit c).isSome = true)
    (hd3 : ∀ c ∈ p3, (decDigit c).isSome = true)
    (hv1 : decValue p1 ≤ 255) (hv2 : decValue p2 ≤ 255) (hv3 : decValue p3 ≤ 255) :
    parseColorL (p1 ++ '-' :: (p2 ++ '-' :: p3))
      = .ok ⟨decValue p1, decValue p2, decValue p3⟩ := by
  have hmem : '-' ∈ p1 ++ '-' :: (p2 ++ '-' :: p3) := by simp
  have hsplit : splitOnChar '-' (p1 ++ '-' :: (p2 ++ '-' :: p3)) = [p1, p2, p3] := by
    rw [splitOnChar_append _ _ _ (not_mem_dash_of_decDigits p1 hd1),
      splitOnChar_append _ _ _ (not_mem_dash_of_decDigits p2 hd2),
      splitOnChar_not_mem _ _ (not_mem_dash_of_decDigits p3 hd3)]
  have hempty : (p1 ++ '-' :: (p2 ++ '-' :: p3)).isEmpty = false := by
    cases p1 <;> simp
  have hcont : (p1 ++ '-' :: (p2 ++ '-' :: p3)).contains '-' = true := by
    simp
  have hj1 := jsParseInt10_all_digits p1 h1 hd1
  have hj2 := jsParseInt10_all_digits p2 h2 hd2
  have hj3 := jsParseInt10_all_digits p3 h3 hd3
  simp [parseColorL, hempty, hcont, hsplit, hj1, hj2, hj3, hv1, hv2, hv3]

theorem not_mem_dash_of_hexDigits (p : List Char)
    (hd : ∀ c ∈ p, (hexDigit c).isSome = true) : '-' ∉ p := by
  intro hm
  exact (hexDigit_char_facts _ (hd _ hm)).2.2.1 rfl

theorem parseColorL_hex3 (c1 c2 c3 : Char) (v1 v2 v3 : Nat)
    (h1 : hexDigit c1 = some v1) (h2 : hexDigit c2 = some v2) (h3 : hexDigit c3 = some v3) :
    parseColorL [c1, c2, c3] = .ok ⟨17 * v1, 17 * v2, 17 * v3⟩
    ∧ parseColorL ('#' :: [c1, c2, c3]) = .ok ⟨17 * v1, 17 * v2, 17 * v3⟩ := by
  have hs1 : (hexDigit c1).isSome = true := by rw [h1]; rfl
  have hs2 : (hexDigit c2).isSome = true := by rw [h2]; rfl
  have hs3 : (hexDigit c3).isSome = true := by rw [h3]; rfl
  have hf1 := hexDigit_char_facts c1 hs1
  have hf2 := hexDigit_char_facts c2 hs2
  have hf3 := hexDigit_char_facts c3 hs3
  have hp1 := jsParseInt16_pair c1 c1 v1 v1 h1 h1
  have hp2 := jsParseInt16_pair c2 c2 v2 v2 h2 h2
  have hp3 := jsParseInt16_pair c3 c3 v3 v3 h3 h3
  have hval : ∀ v : Nat, v * 16 + v = 17 * v := by intro v; ring
  constructor
  · simp [parseColorL, Ne.symm hf1.2.2.1, Ne.symm hf2.2.2.1, Ne.symm hf3.2.2.1,
      hf1.2.2.2.1, hp1, hp2, hp3, hval]
  · have hd : ('-' : Char) ≠ '#' := by decide
    simp [parseColorL, Ne.symm hd, Ne.symm hf1.2.2.1, Ne.symm hf2.2.2.1, Ne.symm hf3.2.2.1,
      hp1, hp2, hp3, hval]

theorem parseColorL_hex6 (c1 c2 c3 c4 c5 c6 : Char) (v1 v2 v3 v4 v5 v6 : Nat)
    (h1 : hexDigit c1 = some v1) (h2 : hexDigit c2 = some v2) (h3 : hexDigit c3 = some v3)
    (h4 : hexDigit c4 = some v4) (h5 : hexDigit c5 = some v5) (h6 : hexDigit c6 = some v6) :
    parseColorL [c1, c2, c3, c4, c5, c6]
      = .ok ⟨v1 * 16 + v2, v3 * 16 + v4, v5 * 16 + v6⟩
    ∧ parseColorL ('#' :: [c1, c2, c3, c4, c5, c6])
      = .ok ⟨v1 * 16 + v2, v3 * 16 + v4, v5 * 16 + v6⟩ := by
  have hs : ∀ c v, hexDigit c = some v → (hexDigit c).isSome = true := by
    intro c v h
    rw [h]; rfl
  have hf1 := hexDigit_char_facts c1 (hs c1 v1 h1)
  have hf2 := hexDigit_char_facts c2 (hs c2 v2 h2)
  have hf3 := hexDigit_char_facts c3 (hs c3 v3 h3)
  have hf4 := hexDigit_char_facts c4 (hs c4 v4 h4)
  have hf5 := hexDigit_char_facts c5 (hs c5 v5 h5)
  have hf6 := hexDigit_char_facts c6 (hs c6 v6 h6)
  have hp1 := jsParseInt16_pair c1 c2 v1 v2 h1 h2
  have hp2 := jsParseInt16_pair c3 c4 v3 v4 h3 h4
  have hp3 := jsParseInt16_pair c5 c6 v5 v6 h5 h6
  constructor
  · simp [parseColorL, Ne.symm hf1.2.2.1, Ne.symm hf2.2.2.1, Ne.symm hf3.2.2.1,
      Ne.symm hf4.2.2.1, Ne.symm hf5.2.2.1, Ne.symm hf6.2.2.1, hf1.2.2.2.1, hp1, hp2, hp3]
  · have hd : ('-' : Char) ≠ '#' := by decide
    simp [parseColorL, Ne.symm hd, Ne.symm hf1.2.2.1, Ne.symm hf2.2.2.1, Ne.symm hf3.2.2.1,
      Ne.symm hf4.2.2.1, Ne.symm hf5.2.2.1, Ne.symm hf6.2.2.1, hp1, hp2, hp3]

theorem parseColorL_wrong_segments (cs : List Char) (hmem : '-' ∈ cs)
    (hlen : (splitOnChar '-' cs).length ≠ 3) :
    parseColorL cs = .error "Invalid color format. Use RGB format like 255-0-0" := by
  have hempty : cs.isEmpty = false := by
    cases cs
    · exact absurd hmem (List.not_mem_nil _)
    · rfl
  have hcont : cs.contains '-' = true := by
    simp
    exact hmem
  simp [parseColorL, hempty, hmem, hlen]

theorem parseColorL_decimal_bad (cs p1 p2 p3 : List Char) (hmem : '-' ∈ cs)
    (hsplit : splitOnChar '-' cs = [p1, p2, p3])
    (hbad : jsParseInt10 p1 = none ∨ jsParseInt10 p2 = none ∨ jsParseInt10 p3 = none
      ∨ ∃ v1 v2 v3, jsParseInt10 p1 = some v1 ∧ jsParseInt10 p2 = some v2
          ∧ jsParseInt10 p3 = some v3 ∧ ¬(v1 ≤ 255 ∧ v2 ≤ 255 ∧ v3 ≤ 255)) :
    parseColorL cs = .error "RGB values must be between 0 and 255" := by
  have hempty : cs.isEmpty = false := by
    cases cs
    · exact absurd hmem (List.not_mem_nil _)
    · rfl
  have hcont : cs.contains '-' = true := by
    simp
    exact hmem
  rcases hbad with hb | hb | hb | ⟨v1, v2, v3, hb1, hb2, hb3, hb⟩
  · rcases hx2 : jsParseInt10 p2 <;> rcases hx3 : jsParseInt10 p3 <;>
      simp [parseColorL, hempty, hmem, hsplit, hb, hx2, hx3]
  · rcases hx1 : jsParseInt10 p1 <;> rcases hx3 : jsParseInt10 p3 <;>
      simp [parseColorL, hempty, hmem, hsplit, hb, hx1, hx3]
  · rcases hx1 : jsParseInt10 p1 <;> rcases hx2 : jsParseInt10 p2 <;>
      simp [parseColorL, hempty, hmem, hsplit, hb, hx1, hx2]
  · simp [parseColorL, hempty, hmem, hsplit, hb1, hb2, hb3, hb]

theorem parseColorL_hex_wrong_length (cs : List Char) (hne : cs ≠ []) (hnm : '-' ∉ cs)
    (hlen3 : (if cs.head? = some '#' then cs.tail else cs).length ≠ 3)
    (hlen6 : (if cs.head? = some '#' then cs.tail else cs).length ≠ 6) :
    parseColorL cs
      = .error "Invalid color format. Use RGB decimal (255-0-0) or hex (ff0000, f00)" := by
  have hempty : cs.isEmpty = false := by
    cases cs
    · exact absurd rfl hne
    · rfl
  have hcont : cs.contains '-' = false := by
    simp
    exact hnm
  simp [parseColorL, hempty, hnm, hlen3, hlen6]

theorem parseColorL_hex_bad_digit (cs : List Char) (hne : cs ≠ []) (hnm : '-' ∉ cs)
    (hbad : ((if cs.head? = some '#' then cs.tail else cs).length = 3
        ∧ (jsParseInt16 [(if cs.head? = some '#' then cs.tail else cs).getD 0 ' ',
              (if cs.head? = some '#' then cs.tail else cs).getD 0 ' '] = none
          ∨ jsParseInt16 [(if cs.head? = some '#' then cs.tail else cs).getD 1 ' ',
              (if cs.head? = some '#' then cs.tail else cs).getD 1 ' '] = none
          ∨ jsParseInt16 [(if cs.head? = some '#' then cs.tail else cs).getD 2 ' ',
              (if cs.head? = some '#' then cs.tail else cs).getD 2 ' '] = none))
      ∨ ((if cs.head? = some '#' then cs.tail else cs).length = 6
        ∧ (jsParseInt16 [(if cs.head? = some '#' then cs.tail else cs).getD 0 ' ',
              (if cs.head? = some '#' then cs.tail else cs).getD 1 ' '] = none
          ∨ jsParseInt16 [(if cs.head? = some '#' then cs.tail else cs).getD 2 ' ',
              (if cs.head? = some '#' then cs.tail else cs).getD 3 ' '] = none
          ∨ jsParseInt16 [(if cs.head? = some '#' then cs.tail else cs).getD 4 ' ',
              (if cs.head? = some '#' then cs.tail else cs).getD 5 ' '] = none))) :
    parseColorL cs = .error "Invalid hex color format" := by
  have hempty : cs.isEmpty = false := by
    cases cs
    · exact absurd rfl hne
    · rfl
  have hcont : cs.contains '-' = false := by
    simp
    exact hnm
  have hempty3 : ¬(cs.isEmpty = true) := by
    rw [hempty]
    exact Bool.false_ne_true
  have hcont3 : ¬(cs.contains '-' = true) := by
    rw [hcont]
    exact Bool.false_ne_true
  simp only [parseColorL]
  rw [if_neg hempty3, if_neg hcont3]
  rcases hbad with ⟨hlen, hb⟩ | ⟨hlen, hb⟩
  · rw [if_pos hlen]
    rcases hb with hb | hb | hb
    · rw [hb]
      try (
        rcases jsParseInt16 [(if cs.head? = some '#' then cs.tail else cs).getD 1 ' ',
            (if cs.head? = some '#' then cs.tail else cs).getD 1 ' '] <;>
          rcases jsParseInt16 [(if cs.head? = some '#' then cs.tail else cs).getD 2 ' ',
            (if cs.head? = some '#' then cs.tail else cs).getD 2 ' '] <;> rfl)
    · rw [hb]
      try (
        rcases jsParseInt16 [(if cs.head? = some '#' then cs.tail else cs).getD 0 ' ',
            (if cs.head? = some '#' then cs.tail else cs).getD 0 ' '] <;>
          rcases jsParseInt16 [(if cs.head? = some '#' then cs.tail else cs).getD 2 ' ',
            (if cs.head? = some '#' then cs.tail else cs).getD 2 ' '] <;> rfl)
    · rw [hb]
      try (
        rcases jsParseInt16 [(if cs.head? = some '#' then cs.tail else cs).getD 0 ' ',
            (if cs.head? = some '#' then cs.tail else cs).getD 0 ' '] <;>
          rcases jsParseInt16 [(if cs.head? = some '#' then cs.tail else cs).getD 1 ' ',
            (if cs.head? = some '#' then cs.tail else cs).getD 1 ' '] <;> rfl)
  · rw [if_neg (by omega), if_pos hlen]
    rcases hb with hb | hb | hb
    · rw [hb]
      try (
        rcases jsParseInt16 [(if cs.head? = some '#' then cs.tail else cs).getD 2 ' ',
            (if cs.head? = some '#' then cs.tail else cs).getD 3 ' '] <;>
          rcases jsParseInt16 [(if cs.head? = some '#' then cs.tail else cs).getD 4 ' ',
            (if cs.head? = some '#' then cs.tail else cs).getD 5 ' '] <;> rfl)
    · rw [hb]
      try (
        rcases jsParseInt16 [(if cs.head? = some '#' then cs.tail else cs).getD 0 ' ',
            (if cs.head? = some '#' then cs.tail else cs).getD 1 ' '] <;>
          rcases jsParseInt16 [(if cs.head? = some '#' then cs.tail else cs).getD 4 ' ',
            (if cs.head? = some '#' then cs.tail else cs).getD 5 ' '] <;> rfl)
    · rw [hb]
      try (
        rcases jsParseInt16 [(if cs.head? = some '#' then cs.tail else cs).getD 0 ' ',
            (if cs.head? = some '#' then cs.tail else cs).getD 1 ' '] <;>
          rcases jsParseInt16 [(if cs.head? = some '#' then cs.tail else cs).getD 2 ' ',
            (if cs.head? = some '#' then cs.tail else cs).getD 3 ' '] <;> rfl)

/-- C6 counterexample: `"12x-0-0"` is not one of the documented well-formed
shapes — it contains `'x'`, which is neither a decimal digit (so the string
is not a dash-separated decimal triple), nor a hex digit, nor `'-'` nor `'#'`
— yet `parseColor` accepts it (JS `parseInt` reads the decimal prefix `12`
and ignores the trailing `x`), instead of raising a parameter error. -/
theorem parseColor_not_total_on_malformed_input :
    parseColor "12x-0-0" = .ok ⟨12, 0, 0⟩
    ∧ 'x' ∈ "12x-0-0".data
    ∧ (decDigit 'x').isSome = false
    ∧ (hexDigit 'x').isSome = false
    ∧ ('x' : Char) ≠ '-'
    ∧ ('x' : Char) ≠ '#' := by
  refine ⟨by rfl, by decide, by decide, by decide, by decide, by decide⟩

/-- C6 (amended): `parseColor` accepts both documented shapes with the
documented meaning — dash-separated decimal triples of digit strings with
components ≤ 255, and 3- or 6-hex-digit strings with optional leading `#`
and short-hex digit duplication (`"f00"` and `"255-0-0"` both give
`{r:255,g:0,b:0}`) — and raises a parameter error on wrong segment counts,
unparseable or out-of-range decimal components, hex candidates of length
other than 3 or 6, and hex digit pairs that do not parse; however, because
components are read with JS `parseInt` leniency, some inputs outside the
documented shapes (extra characters after a numeric prefix, leading
whitespace or `+`) are also accepted rather than rejected. -/
theorem parseColor_documented_shapes_and_errors :
    (∀ p1 p2 p3 : List Char, p1 ≠ [] → p2 ≠ [] → p3 ≠ [] →
      (∀ c ∈ p1, (decDigit c).isSome = true) → (∀ c ∈ p2, (decDigit c).isSome = true) →
      (∀ c ∈ p3, (decDigit c).isSome = true) →
      decValue p1 ≤ 255 → decValue p2 ≤ 255 → decValue p3 ≤ 255 →
      parseColorL (p1 ++ '-' :: (p2 ++ '-' :: p3))
        = .ok ⟨decValue p1, decValue p2, decValue p3⟩)
    ∧ (∀ c1 c2 c3 v1 v2 v3, hexDigit c1 = some v1 → hexDigit c2 = some v2 →
        hexDigit c3 = some v3 →
        parseColorL [c1, c2, c3] = .ok ⟨17 * v1, 17 * v2, 17 * v3⟩
        ∧ parseColorL ('#' :: [c1, c2, c3]) = .ok ⟨17 * v1, 17 * v2, 17 * v3⟩)
    ∧ (∀ c1 c2 c3 c4 c5 c6 v1 v2 v3 v4 v5 v6, hexDigit c1 = some v1 →
        hexDigit c2 = some v2 → hexDigit c3 = some v3 → hexDigit c4 = some v4 →
        hexDigit c5 = some v5 → hexDigit c6 = some v6 →
        parseColorL [c1, c2, c3, c4, c5, c6]
          = .ok ⟨v1 * 16 + v2, v3 * 16 + v4, v5 * 16 + v6⟩
        ∧ parseColorL ('#' :: [c1, c2, c3, c4, c5, c6])
          = .ok ⟨v1 * 16 + v2, v3 * 16 + v4, v5 * 16 + v6⟩)
    ∧ parseColor "f00" = .ok ⟨255, 0, 0⟩
    ∧ parseColor "255-0-0" = .ok ⟨255, 0, 0⟩
    ∧ (∀ cs : List Char, '-' ∈ cs → (splitOnChar '-' cs).length ≠ 3 →
        parseColorL cs = .error "Invalid color format. Use RGB format like 255-0-0")
    ∧ (∀ cs p1 p2 p3 : List Char, '-' ∈ cs → splitOnChar '-' cs = [p1, p2, p3] →
        (jsParseInt10 p1 = none ∨ jsParseInt10 p2 = none ∨ jsParseInt10 p3 = none
          ∨ ∃ v1 v2 v3, jsParseInt10 p1 = some v1 ∧ jsParseInt10 p2 = some v2
              ∧ jsParseInt10 p3 = some v3 ∧ ¬(v1 ≤ 255 ∧ v2 ≤ 255 ∧ v3 ≤ 255)) →
        parseColorL cs = .error "RGB values must be between 0 and 255")
    ∧ (∀ cs : List Char, cs ≠ [] → '-' ∉ cs →
        (if cs.head? = some '#' then cs.tail else cs).length ≠ 3 →
        (if cs.head? = some '#' then cs.tail else cs).length ≠ 6 →
        parseColorL cs
          = .error "Invalid color format. Use RGB decimal (255-0-0) or hex (ff0000, f00)")
    ∧ (∀ cs : List Char, cs ≠ [] → '-' ∉ cs →
        (((if cs.head? = some '#' then cs.tail else cs).length = 3
          ∧ (jsParseInt16 [(if cs.head? = some '#' then cs.tail else cs).getD 0 ' ',
                (if cs.head? = some '#' then cs.tail else cs).getD 0 ' '] = none
            ∨ jsParseInt16 [(if cs.head? = some '#' then cs.tail else cs).getD 1 ' ',
                (if cs.head? = some '#' then cs.tail else cs).getD 1 ' '] = none
            ∨ jsParseInt16 [(if cs.head? = some '#' then cs.tail else cs).getD 2 ' ',
                (if cs.head? = some '#' then cs.tail else cs).getD 2 ' '] = none))
        ∨ ((if cs.head? = some '#' then cs.tail else cs).length = 6
          ∧ (jsParseInt16 [(if cs.head? = some '#' then cs.tail else cs).getD 0 ' ',
                (if cs.head? = some '#' then cs.tail else cs).getD 1 ' '] = none
            ∨ jsParseInt16 [(if cs.head? = some '#' then cs.tail else cs).getD 2 ' ',
                (if cs.head? = some '#' then cs.tail else cs).getD 3 ' '] = none
            ∨ jsParseInt16 [(if cs.head? = some '#' then cs.tail else cs).getD 4 ' ',
                (if cs.head? = some '#' then cs.tail else cs).getD 5 ' '] = none))) →
        parseColorL cs = .error "Invalid hex color format") := by
  refine ⟨parseColorL_decimal, ?_, ?_, by rfl, by rfl,
    parseColorL_wrong_segments, parseColorL_decimal_bad,
    parseColorL_hex_wrong_length, parseColorL_hex_bad_digit⟩
  · intro c1 c2 c3 v1 v2 v3 h1 h2 h3
    exact parseColorL_hex3 c1 c2 c3 v1 v2 v3 h1 h2 h3
  · intro c1 c2 c3 c4 c5 c6 v1 v2 v3 v4 v5 v6 h1 h2 h3 h4 h5 h6
    exact parseColorL_hex6 c1 c2 c3 c4 c5 c6 v1 v2 v3 v4 v5 v6 h1 h2 h3 h4 h5 h6

theorem parseColor_documented_shapes_and_errors_witness :
    parseColorL ("255".data ++ '-' :: ("0".data ++ '-' :: "0".data)) = .ok ⟨255, 0, 0⟩
    ∧ parseColorL "f00".data = .ok ⟨255, 0, 0⟩ :=
  ⟨parseColor_documented_shapes_and_errors.1 "255".data "0".data "0".data
      (by decide) (by decide) (by decide) (by decide) (by decide) (by decide)
      (by decide) (by decide) (by decide),
    (parseColor_documented_shapes_and_errors.2.1 'f' '0' '0' 15 0 0
      (by decide) (by decide) (by decide)).1⟩

theorem padStart2_natToHex (n : Nat) (h : n ≤ 255) :
    padStart2 (natToHex n) = [toHexChar (n / 16), toHexChar (n % 16)] := by
  by_cases h16 : n < 16
  · rw [natToHex, if_pos h16]
    have hd : n / 16 = 0 := Nat.div_eq_of_lt h16
    have hm : n % 16 = n := Nat.mod_eq_of_lt h16
    rw [hd, hm]
    rfl
  · rw [natToHex, if_neg h16]
    have hdlt : n / 16 < 16 := by omega
    rw [natToHex, if_pos hdlt]
    rfl

theorem hexDigit_toHexChar (d : Nat) (h : d < 16) : hexDigit (toHexChar d) = some d := by
  interval_cases d <;> decide

/-- C10: for every color with byte components, `colorToHex` produces a
6-character hex string and `parseColor` parses it back to the same color
(hex serialization and the color parser form a round trip). -/
theorem colorToHex_parseColor_roundtrip (c : Color) (h : c.valid) :
    (colorToHexL c).length = 6 ∧ parseColorL (colorToHexL c) = .ok c := by
  obtain ⟨hr, hg, hb⟩ := h
  have er := padStart2_natToHex c.r hr
  have eg := padStart2_natToHex c.g hg
  have eb := padStart2_natToHex c.b hb
  have hshape : colorToHexL c = [toHexChar (c.r / 16), toHexChar (c.r % 16),
      toHexChar (c.g / 16), toHexChar (c.g % 16),
      toHexChar (c.b / 16), toHexChar (c.b % 16)] := by
    unfold colorToHexL
    rw [er, eg, eb]
    rfl
  rw [hshape]
  refine ⟨rfl, ?_⟩
  have h6 := parseColorL_hex6 (toHexChar (c.r / 16)) (toHexChar (c.r % 16))
    (toHexChar (c.g / 16)) (toHexChar (c.g % 16))
    (toHexChar (c.b / 16)) (toHexChar (c.b % 16))
    (c.r / 16) (c.r % 16) (c.g / 16) (c.g % 16) (c.b / 16) (c.b % 16)
    (hexDigit_toHexChar _ (by omega)) (hexDigit_toHexChar _ (by omega))
    (hexDigit_toHexChar _ (by omega)) (hexDigit_toHexChar _ (by omega))
    (hexDigit_toHexChar _ (by omega)) (hexDigit_toHexChar _ (by omega))
  rw [h6.1]
  have hrv : c.r / 16 * 16 + c.r % 16 = c.r := by omega
  have hgv : c.g / 16 * 16 + c.g % 16 = c.g := by omega
  have hbv : c.b / 16 * 16 + c.b % 16 = c.b := by omega
  rw [hrv, hgv, hbv]

theorem colorToHex_parseColor_roundtrip_witness :
    (colorToHexL ⟨255, 0, 0⟩).length = 6
    ∧ parseColorL (colorToHexL ⟨255, 0, 0⟩) = .ok ⟨255, 0, 0⟩ :=
  colorToHex_parseColor_roundtrip ⟨255, 0, 0⟩ ⟨by decide, by decide, by decide⟩

/-- The two charsets accepted by the validator. -/
inductive Charset
  | utf8
  | iso88591
deriving DecidableEq

/-- Transcription of `convertCharset` (`src/qr-generator.ts` lines 23–39) on
the string's UTF-16 code units (`'?'` is unit 63).  The regex
`[^\u0000-ÿ]` matches exactly the units above 255. -/
def convertCharset (text : List Nat) (src tgt : Charset) : List Nat :=
  if src = tgt then text
  else if src = .utf8 ∧ tgt = .iso88591 then
    text.map (fun u => if u ≤ 255 then u else 63)
  else if src = .iso88591 ∧ tgt = .utf8 then text
  else text

/-- C7: converting UTF-8 → ISO-8859-1 is idempotent after one pass (an
already all-Latin1 string converts to itself), and for pure-ASCII strings
the round trip UTF-8 → ISO-8859-1 → UTF-8 is the identity. -/
theorem convertCharset_idempotent_and_ascii_roundtrip (s : List Nat) :
    convertCharset (convertCharset s .utf8 .iso88591) .utf8 .iso88591
      = convertCharset s .utf8 .iso88591
    ∧ ((∀ u ∈ s, u < 128) →
        convertCharset (convertCharset s .utf8 .iso88591) .iso88591 .utf8 = s) := by
  constructor
  · simp [convertCharset, List.map_map]
    intro a _ h
    by_cases hb : a ≤ 255
    · simp [hb] at h ⊢
      omega
    · simp [hb] at h
  · intro hascii
    simp [convertCharset]
    have : ∀ u ∈ s, (if u ≤ 255 then u else 63) = u := by
      intro u hu
      rw [if_pos (by have := hascii u hu; omega)]
    calc s.map (fun u => if u ≤ 255 then u else 63) = s.map id := List.map_congr_left this
    _ = s := List.map_id s

theorem convertCharset_idempotent_and_ascii_roundtrip_witness :
    convertCharset (convertCharset [72, 105] .utf8 .iso88591) .iso88591 .utf8 = [72, 105] :=
  (convertCharset_idempotent_and_ascii_roundtrip [72, 105]).2 (by decide)

/-- One parameter-map update: `params[key] = value`. -/
def setParam (m : String → Option String) (k v : String) : String → Option String :=
  fun k2 => if k2 = k then some v else m k2

/-- The GET loop of `handleQRCodeRequest`: `for (const [key, value] of
url.searchParams.entries()) params[key] = value` starting from the empty
object. -/
def getParams (get : List (String × String)) : String → Option String :=
  get.foldl (fun m kv => setParam m kv.1 kv.2) (fun _ => none)

/-- JS falsiness of `params[key]`: the property is absent or the empty
string. -/
def jsFalsy (v : Option String) : Bool :=
  match v with
  | none => true
  | some s => s == ""

/-- The POST loop of `handleQRCodeRequest`: for each body entry,
`if (!params[key]) params[key] = value.toString()`. -/
def mergeParams (get post : List (String × String)) : String → Option String :=
  post.foldl (fun m kv => if jsFalsy (m kv.1) then setParam m kv.1 kv.2 else m)
    (getParams get)

/-- Spec-side: fold the candidate values for one key over a current value;
a candidate replaces the current value only when the current one is falsy. -/
def firstNonFalsy (current : Option String) (vs : List String) : Option String :=
  vs.foldl (fun acc v => if jsFalsy acc then some v else acc) current

theorem mergeParams_characterization_aux (post : List (String × String))
    (m : String → Option String) (k : String) :
    (post.foldl (fun m kv => if jsFalsy (m kv.1) then setParam m kv.1 kv.2 else m) m) k
      = firstNonFalsy (m k) ((post.filter (fun kv => kv.1 == k)).map (fun kv => kv.2)) := by
  induction post generalizing m with
  | nil => rfl
  | cons kv rest ih =>
    rw [List.foldl_cons, List.filter_cons]
    by_cases hf : jsFalsy (m kv.1) = true
    · rw [if_pos hf, ih]
      by_cases hk : kv.1 = k
      · have hset : setParam m kv.1 kv.2 k = some kv.2 := by
          unfold setParam
          rw [if_pos hk.symm]
        have hfil : (kv.1 == k) = true := by simp [hk]
        have hfk : jsFalsy (m k) = true := hk ▸ hf
        rw [hset, hfil, if_pos rfl]
        simp only [firstNonFalsy, List.map_cons, List.foldl_cons, hfk]
        simp
      · have hset : setParam m kv.1 kv.2 k = m k := by
          unfold setParam
          rw [if_neg (fun he => hk he.symm)]
        have hfil : (kv.1 == k) = false := by simp [hk]
        rw [hset, hfil, if_neg Bool.false_ne_true]
    · rw [if_neg hf, ih]
      by_cases hk : kv.1 = k
      · have hfil : (kv.1 == k) = true := by simp [hk]
        have hfk : jsFalsy (m k) = false := by
          rw [← hk]
          exact Bool.eq_false_iff.mpr hf
        rw [hfil, if_pos rfl]
        simp only [firstNonFalsy, List.map_cons, List.foldl_cons, hfk]
        simp
      · have hfil : (kv.1 == k) = false := by simp [hk]
        rw [hfil, if_neg Bool.false_ne_true]

/-- C8 counterexample: a key present in the GET mapping with the empty-string
value is overridden by the POST value — `params[key]` is falsy for `""`,
so the merged value is not the GET value. -/
theorem merge_get_empty_overridden :
    getParams [("ecc", "")] "ecc" = some ""
    ∧ mergeParams [("ecc", "")] [("ecc", "M")] "ecc" = some "M"
    ∧ some "M" ≠ some "" := by
  refine ⟨by rfl, by rfl, by decide⟩

/-- C8 (amended): the GET/POST merge gives GET precedence only for keys whose
GET value is present **and non-empty**: such keys keep their GET value; for
any key, the merged value is obtained by folding the POST values for that key
over the GET value, where a POST value is stored only while the current value
is absent or empty.  In particular a POST value is used for keys the GET
mapping does not provide, and also for keys whose GET value is the empty
string. -/
theorem merge_get_precedence (get post : List (String × String)) (k : String) :
    (∀ v, getParams get k = some v → v ≠ "" → mergeParams get post k = some v)
    ∧ mergeParams get post k
        = firstNonFalsy (getParams get k)
            ((post.filter (fun kv => kv.1 == k)).map (fun kv => kv.2)) := by
  have hchar : mergeParams get post k
      = firstNonFalsy (getParams get k)
          ((post.filter (fun kv => kv.1 == k)).map (fun kv => kv.2)) :=
    mergeParams_characterization_aux post (getParams get) k
  refine ⟨?_, hchar⟩
  intro v hv hne
  rw [hchar, hv]
  have hnf : jsFalsy (some v) = false := by
    unfold jsFalsy
    simp [hne]
  generalize (List.map (fun kv => kv.2) (post.filter (fun kv => kv.1 == k))) = vs
  induction vs with
  | nil => rfl
  | cons w ws ih =>
    unfold firstNonFalsy at ih ⊢
    rw [List.foldl_cons, hnf]
    simp only [Bool.false_eq_true, if_false]
    exact ih

theorem merge_get_precedence_witness :
    mergeParams [("ecc", "M")] [("ecc", "L")] "ecc" = some "M" :=
  (merge_get_precedence [("ecc", "M")] [("ecc", "L")] "ecc").1 "M" (by rfl) (by decide)

end QRApi
